import Mathlib

/-!
# Verification of the `QueueManager` job tracker

A shallow embedding of the in-memory job/queue tracker (`QueueManager`) of
the bulk image-enhancement server, together with theorems settling the
spec's claims about it.

Statuses are modelled as strings, exactly as in the source (the tracker
never validates the status argument).  The JavaScript `Map` is modelled as
an association list with insertion-order `set` semantics, the `Set` as a
list with membership-guarded append, and timestamps (`new Date()`) as
explicit `Nat` arguments threaded through the mutating operations.  Every
mutating operation returns the new state together with the list of events
it emits, in emission order.
-/

/-- One per-image task record, as built by `createJob` and mutated by
`updateImageStatus`. -/
structure ImageTask where
  path : String
  status : String
  outputPath : Option String
  error : Option String
  analysis : Option String
deriving Repr, DecidableEq

/-- The aggregate progress counters of a job.  They are JavaScript numbers
mutated by increments and decrements, so they are modelled as integers. -/
structure Progress where
  total : Int
  completed : Int
  failed : Int
  pending : Int
deriving Repr, DecidableEq

/-- A job record, as built by `createJob`. -/
structure Job where
  jobId : String
  status : String
  images : List ImageTask
  createdAt : Nat
  completedAt : Option Nat
  progress : Progress
deriving Repr, DecidableEq

/-- The optional `data` payload of `updateImageStatus`.  A `none` field is
an absent (hence falsy) property; `some ""` is also falsy in JavaScript,
which the operation respects. -/
structure UpdateData where
  outputPath : Option String
  error : Option String
  analysis : Option String
deriving Repr, DecidableEq

/-- The empty `data` payload (the default argument `{}` in the source). -/
def noData : UpdateData := ⟨none, none, none⟩

/-- The notifications emitted by the tracker, in emission order. -/
inductive Event where
  | jobStart (jobId : String)
  | jobComplete (jobId : String)
  | jobUpdate (jobId : String) (job : Job)
deriving Repr, DecidableEq

/-- The snapshot returned by `getStats`. -/
structure Stats where
  totalJobs : Nat
  activeJobs : Nat
  queuedJobs : Nat
  maxConcurrent : Nat
deriving Repr, DecidableEq

/-- The whole tracker state: `jobs` is the `Map` (association list, keys
unique by construction), `activeJobs` the `Set` (list, no duplicates by
construction), `queue` the pending-queue array. -/
structure QueueManager where
  maxConcurrent : Nat
  jobs : List (String × Job)
  activeJobs : List String
  queue : List String
deriving Repr, DecidableEq

/-- A fresh tracker, `new QueueManager(maxConcurrent)`. -/
def init (maxConcurrent : Nat) : QueueManager :=
  ⟨maxConcurrent, [], [], []⟩

/-- `Map.get`: the value at the first (and by construction only) entry for
the key. -/
def mapGet (m : List (String × Job)) (k : String) : Option Job :=
  (m.find? (fun p => p.1 == k)).map (fun p => p.2)

/-- `Map.set`: replace the value in place when the key is present (keys
are unique in a `Map`, so the entry is the first one), append a new entry
otherwise. -/
def mapSet (m : List (String × Job)) (k : String) (v : Job) :
    List (String × Job) :=
  match m with
  | [] => [(k, v)]
  | p :: rest => if p.1 == k then (k, v) :: rest else p :: mapSet rest k v

/-- `Map.delete`: drop the entry for the key. -/
def mapDelete (m : List (String × Job)) (k : String) : List (String × Job) :=
  m.filter (fun p => p.1 != k)

/-- `Set.add`: append when not already a member. -/
def setAdd (l : List String) (x : String) : List String :=
  if l.contains x then l else l ++ [x]

/-- `Set.delete`: drop the element. -/
def setDelete (l : List String) (x : String) : List String :=
  l.filter (fun y => y != x)

/-- `createJob(jobId, imagePaths)`: build the job record, register it and
enqueue its id; returns the record and the new state. -/
def createJob (s : QueueManager) (jobId : String) (imagePaths : List String)
    (now : Nat) : Job × QueueManager :=
  let job : Job :=
    { jobId := jobId
      status := "pending"
      images := imagePaths.map (fun path =>
        { path := path, status := "pending", outputPath := none,
          error := none, analysis := none })
      createdAt := now
      completedAt := none
      progress :=
        { total := (imagePaths.length : Int)
          completed := 0
          failed := 0
          pending := (imagePaths.length : Int) } }
  (job, { s with jobs := mapSet s.jobs jobId job, queue := s.queue ++ [jobId] })

/-- `getJob(jobId)`: lookup, `null` when absent. -/
def getJob (s : QueueManager) (jobId : String) : Option Job :=
  mapGet s.jobs jobId

/-- Overwrite the image's status and the provided (truthy) data fields, as
the body of `updateImageStatus` does before touching the counters. -/
def applyImageUpdate (img : ImageTask) (status : String) (d : UpdateData) :
    ImageTask :=
  let img := { img with status := status }
  let img := match d.outputPath with
    | some p => if p ≠ "" then { img with outputPath := some p } else img
    | none => img
  let img := match d.error with
    | some e => if e ≠ "" then { img with error := some e } else img
    | none => img
  match d.analysis with
    | some a => if a ≠ "" then { img with analysis := some a } else img
    | none => img

/-- Is the image in a terminal state, as tested by the `allDone` check. -/
def isTerminal (img : ImageTask) : Bool :=
  img.status == "completed" || img.status == "failed"

/-- `updateImageStatus(jobId, imageIndex, status, data)`: silently no-op on
unknown id or out-of-range index; otherwise overwrite the image, adjust the
counters, and when every image is terminal mark the job completed, drop it
from the active set and emit `jobComplete`; always emit `jobUpdate`. -/
def updateImageStatus (s : QueueManager) (jobId : String) (imageIndex : Nat)
    (status : String) (data : UpdateData) (now : Nat) :
    QueueManager × List Event :=
  match mapGet s.jobs jobId with
  | none => (s, [])
  | some job =>
    match job.images[imageIndex]? with
    | none => (s, [])
    | some image =>
      let oldStatus := image.status
      let image := applyImageUpdate image status data
      let prog := job.progress
      let prog := if oldStatus == "pending" then
          { prog with pending := prog.pending - 1 } else prog
      let prog := if status == "completed" then
          { prog with completed := prog.completed + 1 }
        else if status == "failed" then
          { prog with failed := prog.failed + 1 }
        else prog
      let images := job.images.set imageIndex image
      let allDone := images.all isTerminal
      if allDone then
        let job := { job with images := images, progress := prog,
                              status := "completed", completedAt := some now }
        ({ s with jobs := mapSet s.jobs jobId job,
                  activeJobs := setDelete s.activeJobs jobId },
         [Event.jobComplete jobId, Event.jobUpdate jobId job])
      else
        let job := { job with images := images, progress := prog }
        ({ s with jobs := mapSet s.jobs jobId job },
         [Event.jobUpdate jobId job])

/-- `startJob(jobId)`: no-op on unknown id; otherwise set the job to
`processing`, add it to the active set, remove it from the pending queue
and emit `jobStart`. -/
def startJob (s : QueueManager) (jobId : String) : QueueManager × List Event :=
  match mapGet s.jobs jobId with
  | none => (s, [])
  | some job =>
    let job := { job with status := "processing" }
    ({ s with jobs := mapSet s.jobs jobId job,
              activeJobs := setAdd s.activeJobs jobId,
              queue := s.queue.erase jobId },
     [Event.jobStart jobId])

/-- `canStartNewJob()`: active count below the cap and a non-empty queue. -/
def canStartNewJob (s : QueueManager) : Bool :=
  s.activeJobs.length < s.maxConcurrent && s.queue.length > 0

/-- `getNextJob()`: peek at the head of the pending queue. -/
def getNextJob (s : QueueManager) : Option String :=
  if s.queue.length = 0 then none else s.queue[0]?

/-- `removeJob(jobId)`: delete the job from the map, the active set and
the pending queue. -/
def removeJob (s : QueueManager) (jobId : String) : QueueManager :=
  { s with jobs := mapDelete s.jobs jobId,
           activeJobs := setDelete s.activeJobs jobId,
           queue := s.queue.erase jobId }

/-- `getAllJobs()`. -/
def getAllJobs (s : QueueManager) : List Job :=
  s.jobs.map (fun p => p.2)

/-- `getStats()`. -/
def getStats (s : QueueManager) : Stats :=
  ⟨s.jobs.length, s.activeJobs.length, s.queue.length, s.maxConcurrent⟩

/-- One call to the tracker, for reasoning about reachable states. -/
inductive Op where
  | create (jobId : String) (imagePaths : List String) (now : Nat)
  | start (jobId : String)
  | update (jobId : String) (imageIndex : Nat) (status : String)
      (data : UpdateData) (now : Nat)
  | remove (jobId : String)
deriving Repr, DecidableEq

/-- Apply one call to the state (events discarded). -/
def applyOp (s : QueueManager) (op : Op) : QueueManager :=
  match op with
  | .create jobId paths now => (createJob s jobId paths now).2
  | .start jobId => (startJob s jobId).1
  | .update jobId i st d now => (updateImageStatus s jobId i st d now).1
  | .remove jobId => removeJob s jobId

/-- Run a sequence of calls. -/
def run (s : QueueManager) (ops : List Op) : QueueManager :=
  ops.foldl applyOp s

/-- The four statuses an image can legitimately hold. -/
def statusOk (st : String) : Bool :=
  st == "pending" || st == "processing" || st == "completed" || st == "failed"

/-- Position of a status in the per-image lifecycle
`pending → processing → {completed, failed}`. -/
def rank (st : String) : Nat :=
  if st == "pending" then 0 else if st == "processing" then 1 else 2

/-- A call is lifecycle-legal in a state when, if it is an update that
actually lands on an image, it moves that image strictly forward in the
lifecycle to one of `processing`, `completed`, `failed` (so no repeated or
regressing transitions, and at most one terminal update per image). -/
def legalOp (s : QueueManager) (op : Op) : Bool :=
  match op with
  | .update jobId i st _ _ =>
    match mapGet s.jobs jobId with
    | none => true
    | some job =>
      match job.images[i]? with
      | none => true
      | some img =>
        statusOk st && st != "pending" && rank img.status < rank st
  | _ => true

/-- A call sequence is lifecycle-legal from a state when each call is
legal in the state it is applied to. -/
def legalRun (s : QueueManager) : List Op → Bool
  | [] => true
  | op :: ops => legalOp s op && legalRun (applyOp s op) ops

/-- Number of images currently holding the given status. -/
def countStatus (st : String) (l : List ImageTask) : Nat :=
  (l.filter (fun img => img.status == st)).length

/-- The progress counters agree with the per-status image counts (and every
image holds one of the four statuses). -/
def countersMatch (images : List ImageTask) (prog : Progress) : Prop :=
  prog.total = (images.length : Int) ∧
  prog.completed = (countStatus "completed" images : Int) ∧
  prog.failed = (countStatus "failed" images : Int) ∧
  prog.pending = (countStatus "pending" images : Int) ∧
  ∀ img ∈ images, statusOk img.status = true

def jobInv (job : Job) : Prop := countersMatch job.images job.progress

def stateInv (s : QueueManager) : Prop := ∀ p ∈ s.jobs, jobInv p.2

def c1Ops : List Op :=
  [Op.create "j" ["a"] 0, Op.update "j" 0 "processing" noData 1]

def c1Job : Job :=
  { jobId := "j", status := "pending",
    images := [{ path := "a", status := "processing", outputPath := none,
                 error := none, analysis := none }],
    createdAt := 0, completedAt := none,
    progress := { total := 1, completed := 0, failed := 0, pending := 0 } }

def c1wOps : List Op :=
  [Op.create "j" ["a"] 0, Op.update "j" 0 "completed" noData 1]

def c1wJob : Job :=
  { jobId := "j", status := "completed",
    images := [{ path := "a", status := "completed", outputPath := none,
                 error := none, analysis := none }],
    createdAt := 0, completedAt := some 1,
    progress := { total := 1, completed := 1, failed := 0, pending := 0 } }

def c3State : QueueManager := (createJob (init 3) "j" [] 0).2

def c4wState : QueueManager :=
  (updateImageStatus ((createJob (init 3) "j" ["a", "b"] 0).2)
    "j" 0 "completed" noData 1).1

def c4wJob : Job :=
  { jobId := "j", status := "pending",
    images := [{ path := "a", status := "completed", outputPath := none,
                 error := none, analysis := none },
               { path := "b", status := "pending", outputPath := none,
                 error := none, analysis := none }],
    createdAt := 0, completedAt := none,
    progress := { total := 2, completed := 1, failed := 0, pending := 1 } }

def c4wImg : ImageTask :=
  { path := "a", status := "completed", outputPath := none,
    error := none, analysis := none }

def c10wState : QueueManager := (createJob (init 3) "j" ["a", "b"] 0).2

def c10wJob : Job := (createJob (init 3) "j" ["a", "b"] 0).1

def c10wImg : ImageTask :=
  { path := "a", status := "pending", outputPath := none,
    error := none, analysis := none }

def c2PreState : QueueManager :=
  (updateImageStatus ((createJob (init 3) "j" ["a"] 0).2)
    "j" 0 "completed" noData 1).1

def c2wState : QueueManager := (createJob (init 3) "j" ["a"] 0).2

def c2wJob : Job := (createJob (init 3) "j" ["a"] 0).1

def c2wImg : ImageTask :=
  { path := "a", status := "pending", outputPath := none,
    error := none, analysis := none }

/-- A call sequence creates jobs only under ids not currently queued, as a
caller respecting the spec's id-uniqueness contract does. -/
def freshRun (s : QueueManager) : List Op → Bool
  | [] => true
  | op :: ops =>
    (match op with
     | .create jobId _ _ => !(s.queue.contains jobId)
     | _ => true) && freshRun (applyOp s op) ops

lemma mapGet_nil (k : String) : mapGet [] k = none := rfl

lemma mapGet_cons (p : String × Job) (m : List (String × Job)) (k : String) :
    mapGet (p :: m) k = if p.1 == k then some p.2 else mapGet m k := by
  simp only [mapGet, List.find?]
  by_cases h : p.1 == k <;> simp [h]

lemma mapGet_mapSet_self (m : List (String × Job)) (k : String) (v : Job) :
    mapGet (mapSet m k v) k = some v := by
  induction m with
  | nil => simp [mapSet, mapGet_cons]
  | cons p rest ih =>
    by_cases h : p.1 == k
    · simp [mapSet, h, mapGet_cons]
    · simp [mapSet, h, mapGet_cons, ih]

lemma mapGet_mapSet_ne (m : List (String × Job)) (k k' : String) (v : Job)
    (h : k' ≠ k) : mapGet (mapSet m k v) k' = mapGet m k' := by
  induction m with
  | nil =>
    simp only [mapSet, mapGet_cons, mapGet_nil]
    have : (k == k') = false := by simp [Ne.symm h]
    simp [this]
  | cons p rest ih =>
    by_cases hp : p.1 == k
    · have hpk : p.1 = k := by simpa using hp
      have : (k == k') = false := by simp [Ne.symm h]
      simp [mapSet, hp, mapGet_cons, this, hpk]
    · simp [mapSet, hp, mapGet_cons, ih]

lemma mapGet_mem {m : List (String × Job)} {k : String} {v : Job}
    (h : mapGet m k = some v) : (k, v) ∈ m := by
  unfold mapGet at h
  rcases Option.map_eq_some'.mp h with ⟨p, hfind, hv⟩
  have hmem := List.mem_of_find?_eq_some hfind
  have hkey := List.find?_some hfind
  have : p.1 = k := by simpa using hkey
  have : p = (k, v) := by
    cases p; simp_all
  rwa [this] at hmem

lemma mem_mapSet {x : String × Job} {m : List (String × Job)} {k : String}
    {v : Job} (h : x ∈ mapSet m k v) : x = (k, v) ∨ x ∈ m := by
  induction m with
  | nil => simpa [mapSet] using h
  | cons p rest ih =>
    by_cases hp : p.1 == k
    · simp only [mapSet, hp, if_pos] at h
      rcases List.mem_cons.mp h with h | h
      · exact Or.inl h
      · exact Or.inr (List.mem_cons_of_mem _ h)
    · simp only [mapSet, hp] at h
      rcases List.mem_cons.mp h with h | h
      · exact Or.inr (h ▸ List.mem_cons_self _ _)
      · rcases ih h with h | h
        · exact Or.inl h
        · exact Or.inr (List.mem_cons_of_mem _ h)

lemma mem_mapDelete {x : String × Job} {m : List (String × Job)} {k : String}
    (h : x ∈ mapDelete m k) : x ∈ m :=
  (List.mem_filter.mp h).1

lemma mapGet_mapDelete_self (m : List (String × Job)) (k : String) :
    mapGet (mapDelete m k) k = none := by
  unfold mapGet
  rw [Option.map_eq_none']
  rw [List.find?_eq_none]
  intro p hp
  have := (List.mem_filter.mp hp).2
  simp only [bne_iff_ne, ne_eq] at this
  simp [this]

lemma countStatus_nil (st : String) : countStatus st [] = 0 := rfl

lemma countStatus_cons (st : String) (img : ImageTask) (l : List ImageTask) :
    countStatus st (img :: l)
      = (if img.status == st then 1 else 0) + countStatus st l := by
  simp only [countStatus, List.filter]
  by_cases h : img.status == st <;> simp [h, Nat.add_comm]

lemma applyImageUpdate_status (img : ImageTask) (st : String) (d : UpdateData) :
    (applyImageUpdate img st d).status = st := by
  rcases d with ⟨op, er, an⟩
  unfold applyImageUpdate
  dsimp only
  cases op <;> cases er <;> cases an <;> dsimp only <;> split_ifs <;> rfl

lemma applyImageUpdate_path (img : ImageTask) (st : String) (d : UpdateData) :
    (applyImageUpdate img st d).path = img.path := by
  rcases d with ⟨op, er, an⟩
  unfold applyImageUpdate
  dsimp only
  cases op <;> cases er <;> cases an <;> dsimp only <;> split_ifs <;> rfl

lemma countStatus_set (st : String) (l : List ImageTask) (i : Nat)
    (img img' : ImageTask) (h : l[i]? = some img) :
    (countStatus st (l.set i img') : Int)
      = countStatus st l + (if img'.status == st then 1 else 0)
          - (if img.status == st then 1 else 0) := by
  induction l generalizing i with
  | nil => simp at h
  | cons hd tl ih =>
    cases i with
    | zero =>
      simp only [List.getElem?_cons_zero, Option.some_inj] at h
      subst h
      rw [List.set_cons_zero, countStatus_cons, countStatus_cons]
      push_cast
      ring
    | succ n =>
      simp only [List.getElem?_cons_succ] at h
      rw [List.set_cons_succ, countStatus_cons, countStatus_cons]
      push_cast
      rw [ih n h]
      ring

lemma countStatus_partition (l : List ImageTask)
    (h : ∀ img ∈ l, statusOk img.status = true) :
    countStatus "pending" l + countStatus "processing" l
      + countStatus "completed" l + countStatus "failed" l = l.length := by
  induction l with
  | nil => simp [countStatus_nil]
  | cons hd tl ih =>
    have hhd := h hd (List.mem_cons_self _ _)
    have htl := ih (fun img hm => h img (List.mem_cons_of_mem _ hm))
    simp only [statusOk, Bool.or_eq_true, beq_iff_eq] at hhd
    simp only [countStatus_cons, List.length_cons]
    obtain ((h1 | h1) | h1) | h1 := hhd <;> rw [h1] <;> simp <;> omega

lemma rank_le_two (st : String) : rank st ≤ 2 := by
  unfold rank; split_ifs <;> omega

lemma countStatus_map_pending (paths : List String) (st : String) :
    countStatus st (paths.map (fun path =>
        ({ path := path, status := "pending", outputPath := none,
           error := none, analysis := none } : ImageTask)))
      = if ("pending" : String) == st then paths.length else 0 := by
  induction paths with
  | nil => rw [List.map_nil]; split <;> rfl
  | cons p ps ih =>
    rw [List.map_cons, countStatus_cons, ih]
    dsimp only
    split <;> simp
    omega

lemma jobInv_createJob (s : QueueManager) (jobId : String)
    (paths : List String) (now : Nat) :
    jobInv (createJob s jobId paths now).1 := by
  unfold createJob jobInv countersMatch
  dsimp only
  refine ⟨by simp, ?_, ?_, ?_, ?_⟩
  · rw [countStatus_map_pending]; simp
  · rw [countStatus_map_pending]; simp
  · rw [countStatus_map_pending]; simp
  · intro img hm
    rcases List.mem_map.mp hm with ⟨path, _, rfl⟩
    rfl

lemma countersMatch_update (images : List ImageTask) (prog prog2 : Progress)
    (i : Nat) (img : ImageTask) (st : String) (d : UpdateData)
    (hi : images[i]? = some img)
    (hinv : countersMatch images prog)
    (hok : statusOk st = true) (hnp : st ≠ "pending")
    (hrank : rank img.status < rank st)
    (ht : prog2.total = prog.total)
    (hc : prog2.completed = prog.completed
        + (if st == "completed" then 1 else 0))
    (hf : prog2.failed = prog.failed + (if st == "failed" then 1 else 0))
    (hp : prog2.pending = prog.pending
        - (if img.status == "pending" then 1 else 0)) :
    countersMatch (images.set i (applyImageUpdate img st d)) prog2 := by
  obtain ⟨htot, hco, hfa, hpe, hall⟩ := hinv
  have hA := applyImageUpdate_status img st d
  have hrank2 : rank img.status < 2 :=
    lt_of_lt_of_le hrank (rank_le_two st)
  have himgc : img.status ≠ "completed" := by
    intro hcc
    rw [hcc, show rank "completed" = 2 from by decide] at hrank2
    omega
  have himgf : img.status ≠ "failed" := by
    intro hcc
    rw [hcc, show rank "failed" = 2 from by decide] at hrank2
    omega
  refine ⟨?_, ?_, ?_, ?_, ?_⟩
  · rw [ht, htot, List.length_set]
  · rw [hc, hco, countStatus_set "completed" images i img _ hi, hA,
        show (img.status == "completed") = false from by simp [himgc]]
    simp
  · rw [hf, hfa, countStatus_set "failed" images i img _ hi, hA,
        show (img.status == "failed") = false from by simp [himgf]]
    simp
  · rw [hp, hpe, countStatus_set "pending" images i img _ hi, hA,
        show (st == "pending") = false from by simp [hnp]]
    simp
  · intro x hx
    rcases List.mem_or_eq_of_mem_set hx with hx | rfl
    · exact hall x hx
    · rw [applyImageUpdate_status]; exact hok

lemma stateInv_create (s : QueueManager) (jobId : String)
    (paths : List String) (now : Nat) (h : stateInv s) :
    stateInv (createJob s jobId paths now).2 := by
  intro p hp
  simp only [createJob] at hp
  rcases mem_mapSet hp with rfl | hp
  · exact jobInv_createJob s jobId paths now
  · exact h p hp

lemma stateInv_start (s : QueueManager) (jobId : String) (h : stateInv s) :
    stateInv (startJob s jobId).1 := by
  unfold startJob
  cases hm : mapGet s.jobs jobId with
  | none => exact h
  | some job =>
    dsimp only
    intro p hp
    rcases mem_mapSet hp with rfl | hp
    · have hj := h _ (mapGet_mem hm)
      exact hj
    · exact h p hp

lemma stateInv_remove (s : QueueManager) (jobId : String) (h : stateInv s) :
    stateInv (removeJob s jobId) := by
  intro p hp
  exact h p (mem_mapDelete hp)

lemma stateInv_update (s : QueueManager) (jobId : String) (i : Nat)
    (st : String) (d : UpdateData) (now : Nat) (h : stateInv s)
    (hl : legalOp s (Op.update jobId i st d now) = true) :
    stateInv (updateImageStatus s jobId i st d now).1 := by
  dsimp only [legalOp] at hl
  unfold updateImageStatus
  cases hm : mapGet s.jobs jobId with
  | none => exact h
  | some job =>
    rw [hm] at hl
    dsimp only at hl
    dsimp only
    cases hi : job.images[i]? with
    | none => exact h
    | some img =>
      rw [hi] at hl
      dsimp only at hl
      simp only [Bool.and_eq_true, bne_iff_ne, ne_eq, decide_eq_true_eq] at hl
      obtain ⟨⟨hok, hnp⟩, hrank⟩ := hl
      have hjob : jobInv job := h _ (mapGet_mem hm)
      dsimp only
      split
      all_goals intro p hp
      all_goals rcases mem_mapSet hp with rfl | hp
      case isTrue.inl =>
        refine countersMatch_update job.images job.progress _ i img st d hi
          hjob hok hnp hrank ?_ ?_ ?_ ?_
        all_goals by_cases h1 : img.status == "pending" <;>
          by_cases h2 : st == "completed" <;> by_cases h3 : st == "failed" <;>
          simp [h1, h2, h3]
        all_goals simp only [beq_iff_eq] at h2 h3; rw [h2] at h3; exact absurd h3 (by decide)
      case isFalse.inl =>
        refine countersMatch_update job.images job.progress _ i img st d hi
          hjob hok hnp hrank ?_ ?_ ?_ ?_
        all_goals by_cases h1 : img.status == "pending" <;>
          by_cases h2 : st == "completed" <;> by_cases h3 : st == "failed" <;>
          simp [h1, h2, h3]
        all_goals simp only [beq_iff_eq] at h2 h3; rw [h2] at h3; exact absurd h3 (by decide)
      case isTrue.inr => exact h p hp
      case isFalse.inr => exact h p hp

lemma stateInv_init (mc : Nat) : stateInv (init mc) := by
  intro p hp
  simp [init] at hp

lemma stateInv_applyOp (s : QueueManager) (op : Op) (h : stateInv s)
    (hl : legalOp s op = true) : stateInv (applyOp s op) := by
  cases op with
  | create jobId paths now => exact stateInv_create s jobId paths now h
  | start jobId => exact stateInv_start s jobId h
  | update jobId i st d now => exact stateInv_update s jobId i st d now h hl
  | remove jobId => exact stateInv_remove s jobId h

lemma stateInv_run (s : QueueManager) (ops : List Op) (h : stateInv s)
    (hl : legalRun s ops = true) : stateInv (run s ops) := by
  induction ops generalizing s with
  | nil => exact h
  | cons op ops ih =>
    simp only [legalRun, Bool.and_eq_true] at hl
    exact ih _ (stateInv_applyOp s op h hl.1) hl.2

theorem c1_progress_sum_counterexample :
    getJob (run (init 3) c1Ops) "j" = some c1Job ∧
    c1Job.progress.completed + c1Job.progress.failed + c1Job.progress.pending
      ≠ c1Job.progress.total := by
  constructor
  · decide
  · decide

/-- Claim C1 (amended): for every job at every state reachable by a
lifecycle-legal call sequence, `completed + failed + pending` equals
`total` minus the number of images currently in status `processing`. -/
theorem c1_progress_sum_invariant (mc : Nat) (ops : List Op)
    (hops : legalRun (init mc) ops = true) (jobId : String) (job : Job)
    (hjob : getJob (run (init mc) ops) jobId = some job) :
    job.progress.completed + job.progress.failed + job.progress.pending
      + (countStatus "processing" job.images : Int) = job.progress.total := by
  have hinv : stateInv (run (init mc) ops) :=
    stateInv_run (init mc) ops (stateInv_init mc) hops
  have hj : jobInv job := hinv (jobId, job) (mapGet_mem hjob)
  obtain ⟨ht, hc, hf, hp, hall⟩ := hj
  have hpart := countStatus_partition job.images hall
  rw [hc, hf, hp, ht]
  omega

theorem c1_progress_sum_witness :
    legalRun (init 3) c1wOps = true ∧
    getJob (run (init 3) c1wOps) "j" = some c1wJob ∧
    c1wJob.progress.completed + c1wJob.progress.failed
        + c1wJob.progress.pending
        + (countStatus "processing" c1wJob.images : Int)
      = c1wJob.progress.total :=
  ⟨by decide, by decide,
   c1_progress_sum_invariant 3 c1wOps (by decide) "j" c1wJob (by decide)⟩

theorem c3_zero_image_counterexample :
    (getJob (startJob c3State "j").1 "j").map Job.status = some "processing" ∧
    (getJob (startJob c3State "j").1 "j").map Job.completedAt = some none ∧
    (startJob c3State "j").2 = [Event.jobStart "j"] := by
  refine ⟨by decide, by decide, by decide⟩

/-- Claim C3 (amended): `startJob` on a job created with an empty image
list treats it like any other job: status becomes `processing` (not
`completed`), `completedAt` stays unset, and only `jobStart` is emitted. -/
theorem c3_startJob_empty_job (s : QueueManager) (jobId : String) (now : Nat) :
    (startJob (createJob s jobId [] now).2 jobId).2
        = [Event.jobStart jobId] ∧
    ∃ job', getJob (startJob (createJob s jobId [] now).2 jobId).1 jobId
          = some job' ∧
      job'.status = "processing" ∧ job'.completedAt = none := by
  have h1 : getJob (createJob s jobId [] now).2 jobId
      = some (createJob s jobId [] now).1 := mapGet_mapSet_self _ _ _
  unfold getJob at h1
  unfold startJob
  rw [h1]
  dsimp only
  refine ⟨rfl, _, mapGet_mapSet_self _ _ _, rfl, rfl⟩

/-- Claim C5: `createJob` returns and registers a job with status
`pending`, one `pending` image per path in input order, `completedAt`
unset, counters `{total := N, completed := 0, failed := 0, pending := N}`,
and appends the id to the tail of the pending queue. -/
theorem c5_createJob_spec (s : QueueManager) (jobId : String)
    (paths : List String) (now : Nat) :
    (createJob s jobId paths now).1.status = "pending" ∧
    (createJob s jobId paths now).1.images
      = paths.map (fun path =>
          { path := path, status := "pending", outputPath := none,
            error := none, analysis := none }) ∧
    (createJob s jobId paths now).1.images.length = paths.length ∧
    (createJob s jobId paths now).1.completedAt = none ∧
    (createJob s jobId paths now).1.progress
      = { total := (paths.length : Int), completed := 0, failed := 0,
          pending := (paths.length : Int) } ∧
    getJob (createJob s jobId paths now).2 jobId
      = some (createJob s jobId paths now).1 ∧
    (createJob s jobId paths now).2.queue = s.queue ++ [jobId] := by
  refine ⟨rfl, rfl, by simp [createJob], rfl, rfl, ?_, rfl⟩
  exact mapGet_mapSet_self _ _ _

/-- Claim C6: `canStartNewJob` holds exactly when the active-job count is
strictly below `maxConcurrent` and the pending queue is non-empty (it is a
pure query of the state). -/
theorem c6_canStartNewJob_iff (s : QueueManager) :
    canStartNewJob s = true ↔
      (s.activeJobs.length < s.maxConcurrent ∧ s.queue ≠ []) := by
  simp [canStartNewJob, ← List.length_pos]

/-- Claim C9: `getNextJob` peeks at the head of the pending queue —
`none` exactly when the queue is empty, its first element otherwise — and
`getNextJob`, `getJob` and `getStats` are pure queries of the state. -/
theorem c9_getNextJob_peek (s : QueueManager) :
    getNextJob s = s.queue.head? ∧
    (s.queue = [] → getNextJob s = none) ∧
    (∀ x xs, s.queue = x :: xs → getNextJob s = some x) := by
  refine ⟨?_, ?_, ?_⟩
  · cases hq : s.queue <;> simp [getNextJob, hq]
  · intro hq; simp [getNextJob, hq]
  · intro x xs hq; simp [getNextJob, hq]

theorem c9_getNextJob_witness :
    getNextJob ⟨3, [], [], ["a", "b"]⟩ = some "a" :=
  (c9_getNextJob_peek ⟨3, [], [], ["a", "b"]⟩).2.2 "a" ["b"] rfl

/-- Claim C7: `updateImageStatus` with an unknown job id or an
out-of-range image index, and `startJob` with an unknown job id, leave the
whole tracker state unchanged, raise no fault and emit nothing. -/
theorem c7_invalid_input_noop (s : QueueManager) (jobId : String) (i : Nat)
    (st : String) (d : UpdateData) (now : Nat) :
    (getJob s jobId = none →
      updateImageStatus s jobId i st d now = (s, []) ∧
      startJob s jobId = (s, [])) ∧
    (∀ job, getJob s jobId = some job → job.images.length ≤ i →
      updateImageStatus s jobId i st d now = (s, [])) := by
  constructor
  · intro hn
    unfold getJob at hn
    constructor
    · unfold updateImageStatus
      rw [hn]
    · unfold startJob
      rw [hn]
  · intro job hj hlen
    unfold getJob at hj
    unfold updateImageStatus
    rw [hj]
    dsimp only
    rw [List.getElem?_eq_none hlen]

theorem c7_invalid_input_witness :
    updateImageStatus (init 3) "nope" 0 "completed" noData 5 = (init 3, []) ∧
    startJob (init 3) "nope" = (init 3, []) :=
  (c7_invalid_input_noop (init 3) "nope" 0 "completed" noData 5).1 (by decide)

lemma removeJob_absent_noop (s : QueueManager) (jobId : String)
    (h1 : getJob s jobId = none) (h2 : jobId ∉ s.activeJobs)
    (h3 : jobId ∉ s.queue) : removeJob s jobId = s := by
  have e1 : mapDelete s.jobs jobId = s.jobs := by
    apply List.filter_eq_self.mpr
    intro p hp
    have := List.find?_eq_none.mp (Option.map_eq_none'.mp h1) p hp
    simpa using this
  have e2 : setDelete s.activeJobs jobId = s.activeJobs := by
    apply List.filter_eq_self.mpr
    intro x hx
    simp only [bne_iff_ne, ne_eq]
    intro hxj
    exact h2 (hxj ▸ hx)
  have e3 : s.queue.erase jobId = s.queue := List.erase_of_not_mem h3
  unfold removeJob
  rw [e1, e2, e3]

/-- Claim C8: after `removeJob(jobId)` the job is gone from the job map
(`getJob` returns `none`), from the active set and from the pending queue
(given that, as holds with caller-unique job ids, the id is queued at most
once), removing an absent id is a no-op that changes nothing, and removing
twice equals removing once (idempotence). -/
theorem c8_removeJob_spec (s : QueueManager) (jobId : String)
    (hq : s.queue.count jobId ≤ 1) :
    getJob (removeJob s jobId) jobId = none ∧
    jobId ∉ (removeJob s jobId).activeJobs ∧
    jobId ∉ (removeJob s jobId).queue ∧
    (getJob s jobId = none → jobId ∉ s.activeJobs → jobId ∉ s.queue →
      removeJob s jobId = s) ∧
    removeJob (removeJob s jobId) jobId = removeJob s jobId := by
  have hjobs : getJob (removeJob s jobId) jobId = none :=
    mapGet_mapDelete_self s.jobs jobId
  have hact : jobId ∉ (removeJob s jobId).activeJobs := by
    intro hmem
    have := (List.mem_filter.mp hmem).2
    simp at this
  have hque : jobId ∉ (removeJob s jobId).queue := by
    have hc := List.count_erase_self jobId s.queue
    have : (s.queue.erase jobId).count jobId = 0 := by omega
    exact List.count_eq_zero.mp this
  exact ⟨hjobs, hact, hque, removeJob_absent_noop s jobId,
    removeJob_absent_noop (removeJob s jobId) jobId hjobs hact hque⟩

theorem c8_removeJob_witness :
    getJob (removeJob ⟨3, [], ["a"], ["a"]⟩ "a") "a" = none ∧
    "a" ∉ (removeJob ⟨3, [], ["a"], ["a"]⟩ "a").activeJobs ∧
    "a" ∉ (removeJob ⟨3, [], ["a"], ["a"]⟩ "a").queue ∧
    (getJob ⟨3, [], ["a"], ["a"]⟩ "a" = none →
      "a" ∉ (⟨3, [], ["a"], ["a"]⟩ : QueueManager).activeJobs →
      "a" ∉ (⟨3, [], ["a"], ["a"]⟩ : QueueManager).queue →
      removeJob ⟨3, [], ["a"], ["a"]⟩ "a" = ⟨3, [], ["a"], ["a"]⟩) ∧
    removeJob (removeJob ⟨3, [], ["a"], ["a"]⟩ "a") "a"
      = removeJob ⟨3, [], ["a"], ["a"]⟩ "a" :=
  c8_removeJob_spec ⟨3, [], ["a"], ["a"]⟩ "a" (by decide)

/-- Claim C4: in `updateImageStatus`, `progress.pending` is decremented
exactly when the image's status before the call was `pending`; any further
call on the same index (whose status has already left `pending`) leaves
`progress.pending` unchanged. -/
theorem c4_pending_guard (s : QueueManager) (jobId : String) (i : Nat)
    (st : String) (d : UpdateData) (now : Nat) (job : Job) (img : ImageTask)
    (hjob : getJob s jobId = some job) (himg : job.images[i]? = some img) :
    ∃ job', getJob (updateImageStatus s jobId i st d now).1 jobId
        = some job' ∧
      job'.progress.pending =
        (if img.status == "pending" then job.progress.pending - 1
         else job.progress.pending) := by
  unfold getJob at hjob ⊢
  unfold updateImageStatus
  rw [hjob]
  dsimp only
  rw [himg]
  dsimp only
  split
  · refine ⟨_, mapGet_mapSet_self _ _ _, ?_⟩
    by_cases h1 : img.status == "pending" <;> by_cases h2 : st == "completed" <;>
      by_cases h3 : st == "failed" <;> simp [h1, h2, h3]
  · refine ⟨_, mapGet_mapSet_self _ _ _, ?_⟩
    by_cases h1 : img.status == "pending" <;> by_cases h2 : st == "completed" <;>
      by_cases h3 : st == "failed" <;> simp [h1, h2, h3]

theorem c4_pending_guard_witness :
    ∃ job', getJob (updateImageStatus c4wState "j" 0 "failed" noData 2).1 "j"
        = some job' ∧
      job'.progress.pending =
        (if c4wImg.status == "pending" then c4wJob.progress.pending - 1
         else c4wJob.progress.pending) :=
  c4_pending_guard c4wState "j" 0 "failed" noData 2 c4wJob c4wImg
    (by decide) (by decide)

/-- Claim C10: a valid `updateImageStatus(jobId, i, ...)` call changes
nothing outside job `jobId`: the queue is untouched, every other job's
record and active-set membership are unchanged; and within the job, the
images at indices other than `i`, every image's `path`, and `createdAt`
are unchanged. -/
theorem c10_update_frame (s : QueueManager) (jobId : String) (i : Nat)
    (st : String) (d : UpdateData) (now : Nat) (job : Job) (img : ImageTask)
    (hjob : getJob s jobId = some job) (himg : job.images[i]? = some img) :
    (updateImageStatus s jobId i st d now).1.queue = s.queue ∧
    (updateImageStatus s jobId i st d now).1.maxConcurrent
      = s.maxConcurrent ∧
    (∀ j', j' ≠ jobId →
      getJob (updateImageStatus s jobId i st d now).1 j' = getJob s j') ∧
    (∀ j', j' ≠ jobId →
      (j' ∈ (updateImageStatus s jobId i st d now).1.activeJobs ↔
        j' ∈ s.activeJobs)) ∧
    ∃ job', getJob (updateImageStatus s jobId i st d now).1 jobId
        = some job' ∧
      job'.createdAt = job.createdAt ∧
      job'.images.length = job.images.length ∧
      (∀ k, k ≠ i → job'.images[k]? = job.images[k]?) ∧
      (∀ k : Nat, (job'.images[k]?).map ImageTask.path
        = (job.images[k]?).map ImageTask.path) := by
  have hilt : i < job.images.length := by
    by_contra hge
    rw [List.getElem?_eq_none (Nat.le_of_not_lt hge)] at himg
    exact Option.noConfusion himg
  unfold getJob at hjob ⊢
  unfold updateImageStatus
  rw [hjob]
  dsimp only
  rw [himg]
  dsimp only
  split
  case isTrue =>
    refine ⟨rfl, rfl, ?_, ?_, ?_⟩
    · intro j' hne
      exact mapGet_mapSet_ne _ _ _ _ hne
    · intro j' hne
      simp only [setDelete, List.mem_filter, bne_iff_ne, ne_eq]
      
      constructor
      · exact fun h => h.1
      · exact fun h => ⟨h, hne⟩
    · refine ⟨_, mapGet_mapSet_self _ _ _, ?_, ?_, ?_, ?_⟩
      · rfl
      · exact List.length_set ..
      · intro k hk
        exact List.getElem?_set_ne (Ne.symm hk)
      · intro k
        by_cases hk : k = i
        · subst hk
          rw [List.getElem?_set_self hilt, himg]
          simp [applyImageUpdate_path]
        · rw [List.getElem?_set_ne (fun h => hk h.symm)]
  case isFalse =>
    refine ⟨rfl, rfl, ?_, ?_, ?_⟩
    · intro j' hne
      exact mapGet_mapSet_ne _ _ _ _ hne
    · intro j' hne
      exact Iff.rfl
    · refine ⟨_, mapGet_mapSet_self _ _ _, ?_, ?_, ?_, ?_⟩
      · rfl
      · exact List.length_set ..
      · intro k hk
        exact List.getElem?_set_ne (Ne.symm hk)
      · intro k
        by_cases hk : k = i
        · subst hk
          rw [List.getElem?_set_self hilt, himg]
          simp [applyImageUpdate_path]
        · rw [List.getElem?_set_ne (fun h => hk h.symm)]

theorem c10_update_frame_witness :
    (updateImageStatus c10wState "j" 0 "completed" noData 1).1.queue
      = c10wState.queue ∧
    (updateImageStatus c10wState "j" 0 "completed" noData 1).1.maxConcurrent
      = c10wState.maxConcurrent ∧
    (∀ j', j' ≠ "j" →
      getJob (updateImageStatus c10wState "j" 0 "completed" noData 1).1 j'
        = getJob c10wState j') ∧
    (∀ j', j' ≠ "j" →
      (j' ∈ (updateImageStatus c10wState "j" 0 "completed" noData 1).1.activeJobs
        ↔ j' ∈ c10wState.activeJobs)) ∧
    ∃ job', getJob (updateImageStatus c10wState "j" 0 "completed" noData 1).1 "j"
        = some job' ∧
      job'.createdAt = c10wJob.createdAt ∧
      job'.images.length = c10wJob.images.length ∧
      (∀ k, k ≠ 0 → job'.images[k]? = c10wJob.images[k]?) ∧
      (∀ k : Nat, (job'.images[k]?).map ImageTask.path
        = (c10wJob.images[k]?).map ImageTask.path) :=
  c10_update_frame c10wState "j" 0 "completed" noData 1 c10wJob c10wImg
    (by decide) (by decide)

/-- Claim C2 (amended): a valid `updateImageStatus` call emits
`jobComplete` exactly when, after the image overwrite, every image of the
job is terminal — with no regard to whether the job was already
`completed`, so a further update on a completed job re-emits `jobComplete`
and re-sets `status` and `completedAt`; when not all images are terminal,
`status` and `completedAt` are left unchanged. -/
theorem c2_jobComplete_emission (s : QueueManager) (jobId : String) (i : Nat)
    (st : String) (d : UpdateData) (now : Nat) (job : Job) (img : ImageTask)
    (hjob : getJob s jobId = some job) (himg : job.images[i]? = some img) :
    (Event.jobComplete jobId ∈ (updateImageStatus s jobId i st d now).2 ↔
      (job.images.set i (applyImageUpdate img st d)).all isTerminal = true) ∧
    ((job.images.set i (applyImageUpdate img st d)).all isTerminal = true →
      ∃ job', getJob (updateImageStatus s jobId i st d now).1 jobId
          = some job' ∧
        job'.status = "completed" ∧ job'.completedAt = some now) ∧
    ((job.images.set i (applyImageUpdate img st d)).all isTerminal = false →
      ∃ job', getJob (updateImageStatus s jobId i st d now).1 jobId
          = some job' ∧
        job'.status = job.status ∧ job'.completedAt = job.completedAt) := by
  unfold getJob at hjob ⊢
  unfold updateImageStatus
  rw [hjob]
  dsimp only
  rw [himg]
  dsimp only
  split
  case isTrue h =>
    refine ⟨?_, ?_, ?_⟩
    · simp [h]
    · intro _
      exact ⟨_, mapGet_mapSet_self _ _ _, rfl, rfl⟩
    · intro hf
      rw [h] at hf
      exact Bool.noConfusion hf
  case isFalse h =>
    rw [Bool.not_eq_true] at h
    refine ⟨?_, ?_, ?_⟩
    · simp [h]
    · intro ht
      rw [ht] at h
      exact Bool.noConfusion h
    · intro _
      exact ⟨_, mapGet_mapSet_self _ _ _, rfl, rfl⟩

theorem c2_reemission_counterexample :
    (getJob c2PreState "j").map Job.status = some "completed" ∧
    Event.jobComplete "j"
      ∈ (updateImageStatus c2PreState "j" 0 "completed" noData 2).2 ∧
    (getJob (updateImageStatus c2PreState "j" 0 "completed" noData 2).1 "j").map
        Job.completedAt = some (some 2) := by
  refine ⟨by decide, by decide, by decide⟩

theorem c2_jobComplete_emission_witness :
    (Event.jobComplete "j" ∈ (updateImageStatus c2wState "j" 0 "completed" noData 1).2 ↔
      (c2wJob.images.set 0 (applyImageUpdate c2wImg "completed" noData)).all isTerminal = true) ∧
    ((c2wJob.images.set 0 (applyImageUpdate c2wImg "completed" noData)).all isTerminal = true →
      ∃ job', getJob (updateImageStatus c2wState "j" 0 "completed" noData 1).1 "j"
          = some job' ∧
        job'.status = "completed" ∧ job'.completedAt = some 1) ∧
    ((c2wJob.images.set 0 (applyImageUpdate c2wImg "completed" noData)).all isTerminal = false →
      ∃ job', getJob (updateImageStatus c2wState "j" 0 "completed" noData 1).1 "j"
          = some job' ∧
        job'.status = c2wJob.status ∧ job'.completedAt = c2wJob.completedAt) :=
  c2_jobComplete_emission c2wState "j" 0 "completed" noData 1 c2wJob c2wImg
    (by decide) (by decide)

lemma updateImageStatus_queue (s : QueueManager) (jobId : String) (i : Nat)
    (st : String) (d : UpdateData) (now : Nat) :
    (updateImageStatus s jobId i st d now).1.queue = s.queue := by
  unfold updateImageStatus
  cases mapGet s.jobs jobId with
  | none => rfl
  | some job =>
    dsimp only
    cases job.images[i]? with
    | none => rfl
    | some img =>
      dsimp only
      split <;> rfl

lemma queue_nodup_applyOp (s : QueueManager) (op : Op)
    (h : s.queue.Nodup)
    (hf : (match op with
           | .create jobId _ _ => !(s.queue.contains jobId)
           | _ => true) = true) :
    (applyOp s op).queue.Nodup := by
  cases op with
  | create jobId paths now =>
    have hf2 : jobId ∉ s.queue := by
      intro hmem
      rw [Bool.not_eq_eq_eq_not, Bool.not_true,
        List.contains_eq_any_beq] at hf
      have : (s.queue.any fun x => jobId == x) = true :=
        List.any_eq_true.mpr ⟨jobId, hmem, by simp⟩
      rw [this] at hf
      exact Bool.noConfusion hf
    simp [applyOp, createJob, List.nodup_append, h, hf2]
  | start jobId =>
    unfold applyOp startJob
    dsimp only
    cases mapGet s.jobs jobId with
    | none => exact h
    | some job => exact h.erase jobId
  | update jobId i st d now =>
    rw [show (applyOp s (Op.update jobId i st d now)).queue
      = (updateImageStatus s jobId i st d now).1.queue from rfl]
    rw [updateImageStatus_queue]
    exact h
  | remove jobId => exact h.erase jobId

lemma queue_nodup_freshRun (s : QueueManager) (ops : List Op)
    (h : s.queue.Nodup) (hf : freshRun s ops = true) :
    (run s ops).queue.Nodup := by
  induction ops generalizing s with
  | nil => exact h
  | cons op ops ih =>
    simp only [freshRun, Bool.and_eq_true] at hf
    exact ih _ (queue_nodup_applyOp s op h hf.1) hf.2

/-- Every state reachable from a fresh tracker under the caller's
id-uniqueness contract queues any id at most once, establishing the
hypothesis under which the `removeJob` claim is proved. -/
lemma queue_count_le_one_reachable (mc : Nat) (ops : List Op)
    (hf : freshRun (init mc) ops = true) (jobId : String) :
    (run (init mc) ops).queue.count jobId ≤ 1 :=
  List.nodup_iff_count_le_one.mp
    (queue_nodup_freshRun (init mc) ops (by simp [init]) hf) jobId
